import Mathlib

/-!
Shallow embedding of the tryiter crate (src/lib.rs, src/ext.rs,
src/try_peekable.rs).

A fallible iterator (any `Iterator<Item = Result<O, E>>`) is embedded as a
`List (RResult α ε)`; pulling `next` pops the head, and the tail is the
iterator's remaining state.  Combinators that take `&mut self` and leave the
iterator usable afterwards are embedded as functions that also return the
remaining list.  `usize` arithmetic appearing in `size_hint` is embedded as
`Nat` with an explicit `USIZE_MAX` bound.
-/

namespace Tryiter

/-- Rust `Result<α, ε>`: an element of a fallible iterator is either a
success payload or an error payload. -/
inductive RResult (α ε : Type) where
  | ok (a : α)
  | err (e : ε)
  deriving DecidableEq, Repr

/-- Rust `usize::MAX` on a 64-bit target. -/
def USIZE_MAX : Nat := 2 ^ 64 - 1

/-- Rust `usize::saturating_add`, on `Nat` with the explicit bound. -/
def saturatingAdd (a b : Nat) : Nat := min (a + b) USIZE_MAX

/-- Rust `usize::checked_add`, on `Nat` with the explicit bound. -/
def checkedAdd (a b : Nat) : Option Nat :=
  if a + b ≤ USIZE_MAX then some (a + b) else none

/-- Rust `Ord::cmp` for a linearly ordered key type: `Less` iff `<`,
`Equal` iff `=`, otherwise `Greater`; applied to the images of a key
function, as in `|v1, v2| f(v1).cmp(&f(v2))`. -/
def cmpOfKey [LinearOrder β] (f : α → β) (a b : α) : Ordering :=
  if f a < f b then .lt else if f a = f b then .eq else .gt

/-- Rust `std::cmp::min_by(v1, v2, compare)`: returns `v1` when the
comparison is `Less` or `Equal`, otherwise `v2`. -/
def cmpMinBy (compare : α → α → Ordering) (v1 v2 : α) : α :=
  match compare v1 v2 with
  | .lt => v1
  | .eq => v1
  | .gt => v2

/-- Rust `std::cmp::max_by(v1, v2, compare)`: returns `v2` when the
comparison is `Less` or `Equal`, otherwise `v1`. -/
def cmpMaxBy (compare : α → α → Ordering) (v1 v2 : α) : α :=
  match compare v1 v2 with
  | .lt => v2
  | .eq => v2
  | .gt => v1

/-- Rust `std::cmp::min_by_key(v1, v2, f)`, defined as
`min_by(v1, v2, |a, b| f(a).cmp(&f(b)))`. -/
def cmpMinByKey [LinearOrder β] (f : α → β) (v1 v2 : α) : α :=
  cmpMinBy (cmpOfKey f) v1 v2

/-- Rust `std::cmp::max_by_key(v1, v2, f)`, defined as
`max_by(v1, v2, |a, b| f(a).cmp(&f(b)))`. -/
def cmpMaxByKey [LinearOrder β] (f : α → β) (v1 v2 : α) : α :=
  cmpMaxBy (cmpOfKey f) v1 v2

/-- TryIteratorExt::try_next (src/ext.rs): `self.next().transpose()`.
Returns the transposed head and the remaining iterator. -/
def try_next : List (RResult α ε) → RResult (Option α) ε × List (RResult α ε)
  | [] => (.ok none, [])
  | .ok v :: rest => (.ok (some v), rest)
  | .err e :: rest => (.err e, rest)

/-- TryIteratorExt::map_ok (src/ext.rs): each element is mapped by
`result.and_then(&mut f)` — `Ok x` becomes `f x` (which may itself fail),
`Err e` passes through. -/
def map_ok (f : α → RResult β ε) (l : List (RResult α ε)) : List (RResult β ε) :=
  l.map fun r =>
    match r with
    | .ok x => f x
    | .err e => .err e

/-- TryIteratorExt::map_err (src/ext.rs): `result.map_err(&mut f)` on each
element. -/
def map_err (f : ε → ε2) (l : List (RResult α ε)) : List (RResult α ε2) :=
  l.map fun r =>
    match r with
    | .ok x => .ok x
    | .err e => .err (f e)

/-- TryIteratorExt::try_filter_map (src/ext.rs): `filter_map` where
`Ok x` maps to `f(x).transpose()` and `Err e` maps to `Some(Err e)`. -/
def try_filter_map (f : α → RResult (Option β) ε) (l : List (RResult α ε)) :
    List (RResult β ε) :=
  l.filterMap fun r =>
    match r with
    | .ok x =>
      match f x with
      | .ok (some t) => some (.ok t)
      | .ok none => none
      | .err e => some (.err e)
    | .err e => some (.err e)

/-- TryIteratorExt::try_filter (src/ext.rs): defined through
`try_filter_map`, keeping the value when the predicate returns `Ok true`,
dropping it on `Ok false`, failing on `Err`. -/
def try_filter (predicate : α → RResult Bool ε) (l : List (RResult α ε)) :
    List (RResult α ε) :=
  try_filter_map
    (fun value =>
      match predicate value with
      | .err e => .err e
      | .ok true => .ok (some value)
      | .ok false => .ok none)
    l

/-- TryIteratorExt::try_all (src/ext.rs): a `for` loop over `&mut self`
returning `Ok(false)` at the first unsatisfied element and lifting the
first failure from the source or the predicate; the pair's second component
is the iterator state left behind. -/
def try_all (f : α → RResult Bool ε) :
    List (RResult α ε) → RResult Bool ε × List (RResult α ε)
  | [] => (.ok true, [])
  | .err e :: rest => (.err e, rest)
  | .ok v :: rest =>
    match f v with
    | .err e => (.err e, rest)
    | .ok false => (.ok false, rest)
    | .ok true => try_all f rest

/-- TryIteratorExt::try_any (src/ext.rs): a `for` loop over `&mut self`
returning `Ok(true)` at the first satisfied element and lifting the first
failure from the source or the predicate; the pair's second component is
the iterator state left behind. -/
def try_any (f : α → RResult Bool ε) :
    List (RResult α ε) → RResult Bool ε × List (RResult α ε)
  | [] => (.ok false, [])
  | .err e :: rest => (.err e, rest)
  | .ok v :: rest =>
    match f v with
    | .err e => (.err e, rest)
    | .ok true => (.ok true, rest)
    | .ok false => try_any f rest

/-- Iterator::try_fold on a list iterator: folds with the fallible closure,
stopping at the closure's first failure. -/
def try_fold (f : σ → π → RResult σ ε) : σ → List π → RResult σ ε
  | acc, [] => .ok acc
  | acc, x :: rest =>
    match f acc x with
    | .err e => .err e
    | .ok acc2 => try_fold f acc2 rest

/-- TryIteratorExt::try_unzip (src/ext.rs): `try_fold` from a pair of
default (empty) containers, extending each with the corresponding pair
component, the `?` on the element lifting the first failure.  Containers
are embedded as lists (`Default` = `[]`, `Extend` of `once` = append). -/
def try_unzip (l : List (RResult (α × β) ε)) : RResult (List α × List β) ε :=
  try_fold
    (fun acc couple =>
      match couple with
      | .err e => .err e
      | .ok (a, b) => .ok (acc.1 ++ [a], acc.2 ++ [b]))
    ([], []) l

/-- TryIteratorExt::try_max_by (src/ext.rs): first element seeds a
`try_fold` with `std::cmp::max_by`; an empty iterator yields `Ok(None)`,
a leading failure is returned, and `Some(...).transpose()` repacks the
fold's outcome. -/
def try_max_by (compare : α → α → Ordering) :
    List (RResult α ε) → RResult (Option α) ε
  | [] => .ok none
  | .err e :: _ => .err e
  | .ok v :: rest =>
    match try_fold
        (fun acc x =>
          match x with
          | .ok x => .ok (cmpMaxBy compare acc x)
          | .err e => .err e)
        v rest with
    | .ok m => .ok (some m)
    | .err e => .err e

/-- TryIteratorExt::try_max_by_key (src/ext.rs): as `try_max_by` but
folding with `std::cmp::max_by_key`. -/
def try_max_by_key [LinearOrder β] (f : α → β) :
    List (RResult α ε) → RResult (Option α) ε
  | [] => .ok none
  | .err e :: _ => .err e
  | .ok v :: rest =>
    match try_fold
        (fun acc x =>
          match x with
          | .ok x => .ok (cmpMaxByKey f acc x)
          | .err e => .err e)
        v rest with
    | .ok m => .ok (some m)
    | .err e => .err e

/-- TryIteratorExt::try_min_by (src/ext.rs): as `try_max_by` but folding
with `std::cmp::min_by`. -/
def try_min_by (compare : α → α → Ordering) :
    List (RResult α ε) → RResult (Option α) ε
  | [] => .ok none
  | .err e :: _ => .err e
  | .ok v :: rest =>
    match try_fold
        (fun acc x =>
          match x with
          | .ok x => .ok (cmpMinBy compare acc x)
          | .err e => .err e)
        v rest with
    | .ok m => .ok (some m)
    | .err e => .err e

/-- TryIteratorExt::try_min_by_key (src/ext.rs): as `try_max_by` but
folding with `std::cmp::min_by_key`. -/
def try_min_by_key [LinearOrder β] (f : α → β) :
    List (RResult α ε) → RResult (Option α) ε
  | [] => .ok none
  | .err e :: _ => .err e
  | .ok v :: rest =>
    match try_fold
        (fun acc x =>
          match x with
          | .ok x => .ok (cmpMinByKey f acc x)
          | .err e => .err e)
        v rest with
    | .ok m => .ok (some m)
    | .err e => .err e

/-- TryIteratorExt::try_max (src/ext.rs): `self.try_max_by(Self::Ok::cmp)`. -/
def try_max [LinearOrder α] (l : List (RResult α ε)) : RResult (Option α) ε :=
  try_max_by (cmpOfKey id) l

/-- TryIteratorExt::try_min (src/ext.rs): `self.try_min_by(Self::Ok::cmp)`. -/
def try_min [LinearOrder α] (l : List (RResult α ε)) : RResult (Option α) ε :=
  try_min_by (cmpOfKey id) l

/-- TryPeekable (src/try_peekable.rs): the wrapped iterator plus the
single-slot cache `peeked : Option<Option<I::Ok>>` — `none` is Empty,
`some (some v)` a buffered success, `some none` buffered end-of-sequence. -/
structure TryPeekable (α ε : Type) where
  iter : List (RResult α ε)
  peeked : Option (Option α)
  deriving DecidableEq, Repr

namespace TryPeekable

/-- TryPeekable::new (src/try_peekable.rs): cache starts Empty. -/
def new (l : List (RResult α ε)) : TryPeekable α ε := ⟨l, none⟩

/-- TryPeekable::try_peek (src/try_peekable.rs): serve the cache when it is
full; otherwise pull one element — a success is stored and returned, the
end is stored as `some none`, and an error is returned WITHOUT being
stored (the cache stays Empty).  The Rust return of `Option<&I::Ok>` is
embedded by value, paired with the updated adapter state. -/
def try_peek (p : TryPeekable α ε) :
    RResult (Option α) ε × TryPeekable α ε :=
  match p.peeked with
  | some v => (.ok v, p)
  | none =>
    match p.iter with
    | .ok v :: rest => (.ok (some v), ⟨rest, some (some v)⟩)
    | .err e :: rest => (.err e, ⟨rest, none⟩)
    | [] => (.ok none, ⟨[], some none⟩)

/-- TryPeekable::try_peek_mut (src/try_peekable.rs): identical to
`try_peek` except for the access mode of the returned reference, which the
value-level embedding does not distinguish. -/
def try_peek_mut (p : TryPeekable α ε) :
    RResult (Option α) ε × TryPeekable α ε :=
  match p.peeked with
  | some v => (.ok v, p)
  | none =>
    match p.iter with
    | .ok v :: rest => (.ok (some v), ⟨rest, some (some v)⟩)
    | .err e :: rest => (.err e, ⟨rest, none⟩)
    | [] => (.ok none, ⟨[], some none⟩)

/-- Iterator::next for TryPeekable (src/try_peekable.rs): `peeked.take()`
yields the buffered element if any, otherwise delegates to the wrapped
iterator. -/
def next (p : TryPeekable α ε) :
    Option (RResult α ε) × TryPeekable α ε :=
  match p.peeked with
  | some (some v) => (some (.ok v), ⟨p.iter, none⟩)
  | some none => (none, ⟨p.iter, none⟩)
  | none =>
    match p.iter with
    | [] => (none, ⟨[], none⟩)
    | x :: rest => (some x, ⟨rest, none⟩)

/-- TryIteratorExt::try_next applied to a TryPeekable:
`self.next().transpose()`. -/
def try_next (p : TryPeekable α ε) :
    RResult (Option α) ε × TryPeekable α ε :=
  match p.next with
  | (none, p2) => (.ok none, p2)
  | (some (.ok v), p2) => (.ok (some v), p2)
  | (some (.err e), p2) => (.err e, p2)

/-- Iterator::count for TryPeekable (src/try_peekable.rs); the wrapped
list iterator's `count` is its length. -/
def count (p : TryPeekable α ε) : Nat :=
  match p.peeked with
  | some none => 0
  | some (some _) => 1 + p.iter.length
  | none => p.iter.length

/-- Iterator::last for TryPeekable (src/try_peekable.rs):
`self.iter.last().or(peek_opt)`; the wrapped list iterator's `last` is
`getLast?`. -/
def last (p : TryPeekable α ε) : Option (RResult α ε) :=
  match p.peeked with
  | some none => none
  | some (some v) => p.iter.getLast?.or (some (.ok v))
  | none => p.iter.getLast?.or none

/-- Iterator::fold for TryPeekable (src/try_peekable.rs): folds the
buffered success first (as `Ok v`), then the wrapped iterator. -/
def fold (f : σ → RResult α ε → σ) (init : σ) (p : TryPeekable α ε) : σ :=
  match p.peeked with
  | some none => init
  | some (some v) => p.iter.foldl f (f init (.ok v))
  | none => p.iter.foldl f init

/-- Iterator::size_hint for TryPeekable (src/try_peekable.rs), as a
function of the cache and of an arbitrary underlying hint: buffered end
returns `(0, some 0)` immediately; otherwise `peek_len` (1 or 0) is added
to the lower bound saturating and to the upper bound checked. -/
def size_hint_with (peeked : Option (Option α)) (hint : Nat × Option Nat) :
    Nat × Option Nat :=
  match peeked with
  | some none => (0, some 0)
  | some (some _) =>
    (saturatingAdd hint.1 1,
      match hint.2 with
      | some x => checkedAdd x 1
      | none => none)
  | none =>
    (saturatingAdd hint.1 0,
      match hint.2 with
      | some x => checkedAdd x 0
      | none => none)

/-- Iterator::size_hint for TryPeekable over the list embedding, whose
wrapped iterator reports the exact hint `(length, some length)`. -/
def size_hint (p : TryPeekable α ε) : Nat × Option Nat :=
  size_hint_with p.peeked (p.iter.length, some p.iter.length)

/-- The raw underlying sequence with the buffered element, if any,
prepended (buffered end-of-sequence prepends nothing). -/
def prepended (p : TryPeekable α ε) : List (RResult α ε) :=
  match p.peeked with
  | some (some v) => .ok v :: p.iter
  | _ => p.iter

end TryPeekable

/-- C1: with an Empty cache and an error next in the underlying iterator,
`try_peek` and `try_peek_mut` return that error and cache nothing, leaving
the cache Empty so the next call pulls a fresh element; over
`[Ok 1, Err 5, Ok 2]` the calls yield `Ok (some 1)` (peek), `Ok (some 1)`
(next), `Err 5` (peek, uncached), then `Ok (some 2)` (peek). -/
theorem try_peek_error_transient :
    (∀ (α ε : Type) (e : ε) (rest : List (RResult α ε)),
      TryPeekable.try_peek ⟨.err e :: rest, none⟩ = (.err e, ⟨rest, none⟩)
      ∧ TryPeekable.try_peek_mut ⟨.err e :: rest, none⟩ = (.err e, ⟨rest, none⟩))
    ∧ TryPeekable.try_peek
        (TryPeekable.new ([.ok 1, .err 5, .ok 2] : List (RResult Nat Nat)))
        = (.ok (some 1), ⟨[.err 5, .ok 2], some (some 1)⟩)
    ∧ TryPeekable.try_next (⟨[.err 5, .ok 2], some (some 1)⟩ : TryPeekable Nat Nat)
        = (.ok (some 1), ⟨[.err 5, .ok 2], none⟩)
    ∧ TryPeekable.try_peek (⟨[.err 5, .ok 2], none⟩ : TryPeekable Nat Nat)
        = (.err 5, ⟨[.ok 2], none⟩)
    ∧ TryPeekable.try_peek (⟨[.ok 2], none⟩ : TryPeekable Nat Nat)
        = (.ok (some 2), ⟨[], some (some 2)⟩) :=
  ⟨fun _ _ _ _ => ⟨rfl, rfl⟩, rfl, rfl, rfl, rfl⟩

/-- C9: once `try_peek` has returned a success (a value or end-of-sequence
is cached), an immediately following `try_peek` returns the identical
cached value and leaves the adapter state — hence the underlying
iterator — unchanged. -/
theorem try_peek_idempotent (α ε : Type) (p : TryPeekable α ε) (v : Option α)
    (h : p.try_peek.1 = .ok v) :
    p.try_peek.2.try_peek = (.ok v, p.try_peek.2) := by
  obtain ⟨iter, peeked⟩ := p
  cases peeked with
  | some w =>
    simp only [TryPeekable.try_peek] at h ⊢
    cases h
    rfl
  | none =>
    cases iter with
    | nil =>
      simp only [TryPeekable.try_peek] at h ⊢
      cases h
      rfl
    | cons r rest =>
      cases r with
      | ok u =>
        simp only [TryPeekable.try_peek] at h ⊢
        cases h
        rfl
      | err e => simp [TryPeekable.try_peek] at h

/-- Witness for try_peek_idempotent at a concrete adapter. -/
theorem try_peek_idempotent_witness :
    (TryPeekable.new ([.ok 1] : List (RResult Nat Nat))).try_peek.2.try_peek
      = (.ok (some 1),
         (TryPeekable.new ([.ok 1] : List (RResult Nat Nat))).try_peek.2) :=
  try_peek_idempotent Nat Nat (TryPeekable.new [.ok 1]) (some 1) rfl

/-- C4: `try_all` and `try_any` stop at the first failure from the source
or the predicate and return it, stop with `Ok false` / `Ok true` at the
first falsifying / satisfying element, and leave the elements after the
short-circuit point unconsumed; over `[Ok 1, Ok 2, Err 7, Ok 3]` with the
predicate "less than 4", `try_all` returns `Err 7` with `[Ok 3]` still in
the iterator. -/
theorem try_all_any_short_circuit :
    (∀ (α ε : Type) (f : α → RResult Bool ε) (e : ε) (rest : List (RResult α ε)),
      try_all f (.err e :: rest) = (.err e, rest)
      ∧ try_any f (.err e :: rest) = (.err e, rest))
    ∧ (∀ (α ε : Type) (f : α → RResult Bool ε) (v : α) (rest : List (RResult α ε)),
      try_all f (.ok v :: rest)
        = (match f v with
           | .err e => (.err e, rest)
           | .ok false => (.ok false, rest)
           | .ok true => try_all f rest)
      ∧ try_any f (.ok v :: rest)
        = (match f v with
           | .err e => (.err e, rest)
           | .ok true => (.ok true, rest)
           | .ok false => try_any f rest))
    ∧ (∀ (α ε : Type) (f : α → RResult Bool ε),
      try_all f ([] : List (RResult α ε)) = (.ok true, [])
      ∧ try_any f ([] : List (RResult α ε)) = (.ok false, []))
    ∧ try_all (fun x => .ok (decide (x < 4)))
        ([.ok 1, .ok 2, .err 7, .ok 3] : List (RResult Nat Nat))
        = (.err 7, [.ok 3]) := by
  refine ⟨fun α ε f e rest => ⟨rfl, rfl⟩, fun α ε f v rest => ⟨?_, ?_⟩,
    fun α ε f => ⟨rfl, rfl⟩, by decide⟩
  · show try_all f (.ok v :: rest) = _
    rw [try_all]
  · show try_any f (.ok v :: rest) = _
    rw [try_any]

/-- C5: `try_filter_map` passes source failures through without applying
the closure; on a success payload `x`, `Ok (some t)` emits `Ok t`,
`Ok none` drops the element, and `Err e` emits `Err e` in its place; over
`[Ok 1, Ok 6, Err 9]`, halving only even numbers gives `[Ok 3, Err 9]`. -/
theorem try_filter_map_spec :
    (∀ (α β ε : Type) (f : α → RResult (Option β) ε) (e : ε)
        (rest : List (RResult α ε)),
      try_filter_map f (.err e :: rest) = .err e :: try_filter_map f rest)
    ∧ (∀ (α β ε : Type) (f : α → RResult (Option β) ε) (x : α)
        (rest : List (RResult α ε)),
      try_filter_map f (.ok x :: rest)
        = (match f x with
           | .ok (some t) => .ok t :: try_filter_map f rest
           | .ok none => try_filter_map f rest
           | .err e => .err e :: try_filter_map f rest))
    ∧ try_filter_map (fun x => .ok (if x % 2 == 0 then some (x / 2) else none))
        ([.ok 1, .ok 6, .err 9] : List (RResult Nat Nat))
        = [.ok 3, .err 9] := by
  refine ⟨fun α β ε f e rest => rfl, fun α β ε f x rest => ?_, by decide⟩
  show List.filterMap _ (_ :: _) = _
  rw [List.filterMap_cons]
  cases hf : f x with
  | ok o => cases o <;> simp [hf, try_filter_map]
  | err e => simp [hf, try_filter_map]

/-- C6: `map_ok` applies its fallible closure to each success payload, a
closure failure appearing at that element's position exactly as a source
failure would; source failures pass through unchanged, and the output
matches the source position by position (order and interleaving are
preserved). -/
theorem map_ok_spec :
    (∀ (α β ε : Type) (f : α → RResult β ε) (l : List (RResult α ε)),
      (map_ok f l).length = l.length)
    ∧ (∀ (α β ε : Type) (f : α → RResult β ε) (l : List (RResult α ε)) (i : Nat),
      (map_ok f l)[i]?
        = (l[i]?).map fun r =>
            match r with
            | .ok x => f x
            | .err e => .err e)
    ∧ (∀ (α β ε : Type) (f : α → RResult β ε) (x : α) (rest : List (RResult α ε)),
      map_ok f (.ok x :: rest) = f x :: map_ok f rest)
    ∧ (∀ (α β ε : Type) (f : α → RResult β ε) (e : ε) (rest : List (RResult α ε)),
      map_ok f (.err e :: rest) = .err e :: map_ok f rest) :=
  ⟨fun _ _ _ _f l => List.length_map l _,
   fun _ _ _ _f l i => List.getElem?_map _ l i,
   fun _ _ _ _ _ _ => rfl,
   fun _ _ _ _ _ _ => rfl⟩

/-- C3: for every TryPeekable state satisfying the reachability invariant
(buffered end-of-sequence is only recorded once the wrapped iterator is
exhausted) whose wrapped length fits in `usize`, the Iterator operations
count, size_hint, last and fold each return the result of the same
operation on the raw underlying sequence with the buffered element, if
any, prepended. -/
theorem peekable_prepend_equiv (α ε : Type) (p : TryPeekable α ε)
    (hinv : p.peeked = some none → p.iter = [])
    (hlen : p.iter.length < USIZE_MAX) :
    p.count = p.prepended.length
    ∧ p.size_hint = (p.prepended.length, some p.prepended.length)
    ∧ p.last = p.prepended.getLast?
    ∧ ∀ (σ : Type) (f : σ → RResult α ε → σ) (init : σ),
        p.fold f init = p.prepended.foldl f init := by
  obtain ⟨iter, peeked⟩ := p
  match peeked with
  | some none =>
    have hi : iter = [] := hinv rfl
    subst hi
    exact ⟨rfl, rfl, rfl, fun σ f init => rfl⟩
  | some (some v) =>
    have h1 : saturatingAdd iter.length 1 = iter.length + 1 :=
      Nat.min_eq_left hlen
    have h2 : checkedAdd iter.length 1 = some (iter.length + 1) :=
      if_pos hlen
    refine ⟨?_, ?_, ?_, fun σ f init => rfl⟩
    · show 1 + iter.length = (RResult.ok v :: iter).length
      simp [Nat.add_comm]
    · show (saturatingAdd iter.length 1, _) = _
      rw [h1]
      show (_, checkedAdd iter.length 1) = _
      rw [h2]
      simp [TryPeekable.prepended]
    · show iter.getLast?.or (some (RResult.ok v))
        = (RResult.ok v :: iter).getLast?
      cases hit : iter.getLast? with
      | none =>
        rw [List.getLast?_eq_none_iff] at hit
        subst hit
        rfl
      | some w =>
        have hcons : (RResult.ok v :: iter).getLast? = some w := by
          cases iter with
          | nil => simp at hit
          | cons a t => rw [List.getLast?_cons_cons]; exact hit
        rw [hcons]
        rfl
  | none =>
    have h1 : saturatingAdd iter.length 0 = iter.length :=
      Nat.min_eq_left (Nat.le_of_lt hlen)
    have h2 : checkedAdd iter.length 0 = some iter.length :=
      if_pos (Nat.le_of_lt hlen)
    refine ⟨rfl, ?_, ?_, fun σ f init => rfl⟩
    · show (saturatingAdd iter.length 0, _) = _
      rw [h1]
      show (_, checkedAdd iter.length 0) = _
      rw [h2]
      rfl
    · show iter.getLast?.or none = iter.getLast?
      cases iter.getLast? <;> rfl

/-- Witness for peekable_prepend_equiv: a buffered success in front of a
one-element iterator behaves as the two-element raw sequence. -/
theorem peekable_prepend_equiv_witness :
    (⟨[.ok 2], some (some 1)⟩ : TryPeekable Nat Nat).count = 2
    ∧ (⟨[.ok 2], some (some 1)⟩ : TryPeekable Nat Nat).size_hint = (2, some 2)
    ∧ (⟨[.ok 2], some (some 1)⟩ : TryPeekable Nat Nat).last = some (.ok 2)
    ∧ (⟨[.ok 2], some (some 1)⟩ : TryPeekable Nat Nat).fold
        (fun acc _ => acc + 1) 0 = 2 := by
  obtain ⟨h1, h2, h3, h4⟩ :=
    peekable_prepend_equiv Nat Nat ⟨[.ok 2], some (some 1)⟩
      (by decide) (by decide)
  exact ⟨h1.trans rfl, h2.trans rfl, h3.trans rfl,
    (h4 Nat (fun acc _ => acc + 1) 0).trans rfl⟩

/-- C10: `size_hint` on the adapter is total for every cache state and
underlying hint that fits in `usize`: buffered end returns `(0, some 0)`;
a buffered success adds one to the lower bound saturating at
`usize::MAX` and turns the upper bound into `none` instead of wrapping
when adding one would overflow; an empty cache leaves the hint unchanged;
and the produced bounds never exceed `usize::MAX`. -/
theorem size_hint_no_overflow (α : Type) (peeked : Option (Option α))
    (lo : Nat) (hi : Option Nat)
    (hlo : lo ≤ USIZE_MAX) (hhi : ∀ x, hi = some x → x ≤ USIZE_MAX) :
    TryPeekable.size_hint_with (some none : Option (Option α)) (lo, hi) = (0, some 0)
    ∧ (∀ v : α,
        TryPeekable.size_hint_with (some (some v)) (lo, hi)
          = ((if lo + 1 ≤ USIZE_MAX then lo + 1 else USIZE_MAX),
             match hi with
             | some x => if x + 1 ≤ USIZE_MAX then some (x + 1) else none
             | none => none))
    ∧ TryPeekable.size_hint_with (none : Option (Option α)) (lo, hi) = (lo, hi)
    ∧ (TryPeekable.size_hint_with peeked (lo, hi)).1 ≤ USIZE_MAX
    ∧ (∀ y, (TryPeekable.size_hint_with peeked (lo, hi)).2 = some y →
        y ≤ USIZE_MAX) := by
  refine ⟨rfl, fun v => ?_, ?_, ?_, ?_⟩
  · simp only [TryPeekable.size_hint_with, saturatingAdd, Nat.min_def, checkedAdd]
    cases hi <;> rfl
  · have h1 : saturatingAdd lo 0 = lo := Nat.min_eq_left hlo
    cases hi with
    | none =>
      show (saturatingAdd lo 0, _) = _
      rw [h1]
    | some x =>
      have h2 : checkedAdd x 0 = some x := if_pos (hhi x rfl)
      show (saturatingAdd lo 0, _) = _
      rw [h1]
      show (_, checkedAdd x 0) = _
      rw [h2]
  · match peeked with
    | some none => exact Nat.zero_le _
    | some (some v) => exact Nat.min_le_right _ _
    | none => exact Nat.min_le_right _ _
  · intro y
    match peeked with
    | some none =>
      intro hy
      cases hy
      exact Nat.zero_le _
    | some (some v) =>
      cases hi with
      | none => intro hy; cases hy
      | some x =>
        simp only [TryPeekable.size_hint_with, checkedAdd]
        by_cases hx : x + 1 ≤ USIZE_MAX
        · rw [if_pos hx]
          intro hy
          cases hy
          exact hx
        · rw [if_neg hx]
          intro hy
          cases hy
    | none =>
      cases hi with
      | none => intro hy; cases hy
      | some x =>
        simp only [TryPeekable.size_hint_with, checkedAdd]
        by_cases hx : x + 0 ≤ USIZE_MAX
        · rw [if_pos hx]
          intro hy
          cases hy
          exact hx
        · rw [if_neg hx]
          intro hy
          cases hy

/-- Witness for size_hint_no_overflow at the overflow edge: with a
buffered success and an exact underlying hint of `usize::MAX`, the lower
bound saturates and the upper bound becomes `none`. -/
theorem size_hint_no_overflow_witness :
    TryPeekable.size_hint_with (some (some (0 : Nat))) (USIZE_MAX, some USIZE_MAX)
      = (USIZE_MAX, none)
    ∧ TryPeekable.size_hint_with (none : Option (Option Nat)) (3, some 7)
      = (3, some 7) := by
  constructor
  · have h := (size_hint_no_overflow Nat (some (some 0)) USIZE_MAX (some USIZE_MAX)
      (Nat.le_refl _) (fun x hx => by cases hx; exact Nat.le_refl _)).2.1 0
    exact h.trans (by decide)
  · exact (size_hint_no_overflow Nat none 3 (some 7)
      (by decide) (fun x hx => by cases hx; decide)).2.2.1

/-- C7: `try_max_by_key` keyed by the first component over
`[Ok (5,0), Ok (9,0), Ok (7,0), Ok (9,-1), Ok (8,0)]` returns
`Ok (some (9,-1))` — the last of the equally-maximum elements — and with
`Err 77` inserted before `(9,-1)` it returns `Err 77` instead. -/
theorem try_max_by_key_example :
    try_max_by_key (fun p => p.1)
        ([.ok (5, 0), .ok (9, 0), .ok (7, 0), .ok (9, -1), .ok (8, 0)]
          : List (RResult (Nat × Int) Nat))
      = .ok (some (9, -1))
    ∧ try_max_by_key (fun p => p.1)
        ([.ok (5, 0), .ok (9, 0), .ok (7, 0), .err 77, .ok (9, -1), .ok (8, 0)]
          : List (RResult (Nat × Int) Nat))
      = .err 77 := by
  constructor <;> decide

theorem try_fold_unzip_ok (α β ε : Type) (l : List (α × β)) :
    ∀ acc : List α × List β,
      try_fold
        (fun acc couple =>
          match couple with
          | RResult.err e => RResult.err e
          | RResult.ok (a, b) => RResult.ok (acc.1 ++ [a], acc.2 ++ [b]))
        acc (l.map RResult.ok : List (RResult (α × β) ε))
      = RResult.ok (acc.1 ++ l.map Prod.fst, acc.2 ++ l.map Prod.snd) := by
  induction l with
  | nil => intro acc; simp [try_fold]
  | cons x t ih =>
    intro acc
    obtain ⟨a, b⟩ := x
    simp [try_fold, ih]

theorem try_fold_unzip_err (α β ε : Type) (l1 : List (α × β)) (e : ε)
    (l2 : List (RResult (α × β) ε)) :
    ∀ acc : List α × List β,
      try_fold
        (fun acc couple =>
          match couple with
          | RResult.err e => RResult.err e
          | RResult.ok (a, b) => RResult.ok (acc.1 ++ [a], acc.2 ++ [b]))
        acc (l1.map RResult.ok ++ .err e :: l2)
      = RResult.err e := by
  induction l1 with
  | nil => intro acc; rfl
  | cons x t ih =>
    intro acc
    obtain ⟨a, b⟩ := x
    simp [try_fold, ih]

/-- C8: `try_unzip` on an all-success sequence of pairs returns `Ok` of
the two containers of left and right components in order; the first
failure is returned as-is, no partial result is surfaced, and the
elements after the failure contribute nothing (the result does not depend
on them); over `[Ok (1,2), Err 9, Ok (5,6)]` it returns `Err 9`. -/
theorem try_unzip_spec :
    (∀ (α β ε : Type) (l : List (α × β)),
      try_unzip ((l.map RResult.ok : List (RResult (α × β) ε)))
        = .ok (l.map Prod.fst, l.map Prod.snd))
    ∧ (∀ (α β ε : Type) (l1 : List (α × β)) (e : ε)
        (l2 : List (RResult (α × β) ε)),
      try_unzip (l1.map RResult.ok ++ .err e :: l2) = .err e)
    ∧ try_unzip ([.ok (1, 2), .err 9, .ok (5, 6)] : List (RResult (Nat × Nat) Nat))
      = .err 9 := by
  refine ⟨fun α β ε l => ?_, fun α β ε l1 e l2 => ?_, by decide⟩
  · simpa [try_unzip] using try_fold_unzip_ok α β ε l ([], [])
  · exact try_fold_unzip_err α β ε l1 e l2 ([], [])

theorem cmpMinByKey_eq_ite (α β : Type) [LinearOrder β] (k : α → β)
    (x b : α) : cmpMinByKey k x b = if k b < k x then b else x := by
  unfold cmpMinByKey cmpMinBy cmpOfKey
  by_cases h1 : k x < k b
  · simp [h1, asymm h1]
  · by_cases h2 : k x = k b
    · simp [h1, h2, lt_irrefl]
    · have h3 : k b < k x := (lt_or_gt_of_ne h2).resolve_left h1
      simp [h1, h2, h3]

theorem try_min_by_key_cons (α β ε : Type) [LinearOrder β] (k : α → β)
    (x b : α) (rest : List (RResult α ε)) :
    try_min_by_key k (.ok x :: .ok b :: rest)
      = try_min_by_key k (.ok (cmpMinByKey k x b) :: rest) := rfl

theorem try_min_by_key_map_ok (α β ε : Type) [LinearOrder β] (k : α → β)
    (l : List α) :
    ∀ x : α,
      try_min_by_key k (((x :: l).map RResult.ok) : List (RResult α ε))
        = .ok (some (l.foldl (cmpMinByKey k) x)) := by
  induction l with
  | nil => intro x; rfl
  | cons b t ih =>
    intro x
    have h1 : ((x :: b :: t).map RResult.ok : List (RResult α ε))
        = .ok x :: .ok b :: t.map RResult.ok := rfl
    have h2 : ((cmpMinByKey k x b :: t).map RResult.ok : List (RResult α ε))
        = .ok (cmpMinByKey k x b) :: t.map RResult.ok := rfl
    rw [h1, try_min_by_key_cons, ← h2, ih (cmpMinByKey k x b), List.foldl_cons]

theorem try_min_by_cons (α ε : Type) (compare : α → α → Ordering)
    (x b : α) (rest : List (RResult α ε)) :
    try_min_by compare (.ok x :: .ok b :: rest)
      = try_min_by compare (.ok (cmpMinBy compare x b) :: rest) := rfl

theorem try_min_by_map_ok (α ε : Type) (compare : α → α → Ordering)
    (l : List α) :
    ∀ x : α,
      try_min_by compare (((x :: l).map RResult.ok) : List (RResult α ε))
        = .ok (some (l.foldl (cmpMinBy compare) x)) := by
  induction l with
  | nil => intro x; rfl
  | cons b t ih =>
    intro x
    have h1 : ((x :: b :: t).map RResult.ok : List (RResult α ε))
        = .ok x :: .ok b :: t.map RResult.ok := rfl
    have h2 : ((cmpMinBy compare x b :: t).map RResult.ok : List (RResult α ε))
        = .ok (cmpMinBy compare x b) :: t.map RResult.ok := rfl
    rw [h1, try_min_by_cons, ← h2, ih (cmpMinBy compare x b), List.foldl_cons]

theorem foldl_minByKey_first (α β : Type) [LinearOrder β] (k : α → β)
    (l : List α) :
    ∀ x : α, ∃ l1 l2,
      x :: l = l1 ++ (l.foldl (cmpMinByKey k) x) :: l2
      ∧ (∀ y ∈ l1, k (l.foldl (cmpMinByKey k) x) < k y)
      ∧ (∀ y ∈ l2, k (l.foldl (cmpMinByKey k) x) ≤ k y)
      ∧ (∀ y ∈ x :: l, k (l.foldl (cmpMinByKey k) x) ≤ k y) := by
  induction l with
  | nil =>
    intro x
    exact ⟨[], [], rfl, by simp, by simp, by simp⟩
  | cons b t ih =>
    intro x
    rw [List.foldl_cons, cmpMinByKey_eq_ite]
    by_cases h : k b < k x
    · rw [if_pos h]
      obtain ⟨l1, l2, heq, h1, h2, h3⟩ := ih b
      refine ⟨x :: l1, l2, ?_, ?_, h2, ?_⟩
      · rw [List.cons_append, ← heq]
      · intro y hy
        rcases List.mem_cons.1 hy with rfl | hy
        · exact lt_of_le_of_lt (h3 b (List.mem_cons_self b t)) h
        · exact h1 y hy
      · intro y hy
        rcases List.mem_cons.1 hy with rfl | hy
        · exact le_of_lt (lt_of_le_of_lt (h3 b (List.mem_cons_self b t)) h)
        · exact h3 y hy
    · rw [if_neg h]
      have hxb : k x ≤ k b := not_lt.1 h
      obtain ⟨l1, l2, heq, h1, h2, h3⟩ := ih x
      cases l1 with
      | nil =>
        simp only [List.nil_append] at heq
        injection heq with hm hl2
        refine ⟨[], b :: l2, ?_, by simp, ?_, ?_⟩
        · rw [List.nil_append, ← hm, ← hl2]
        · intro y hy
          rcases List.mem_cons.1 hy with rfl | hy
          · rw [← hm]; exact hxb
          · exact h2 y hy
        · intro y hy
          rcases List.mem_cons.1 hy with rfl | hy
          · rw [← hm]
          · rcases List.mem_cons.1 hy with rfl | hy
            · rw [← hm]; exact hxb
            · exact h3 y (List.mem_cons_of_mem x hy)
      | cons a l1t =>
        rw [List.cons_append] at heq
        injection heq with hax htail
        subst hax
        have hmx : k (t.foldl (cmpMinByKey k) x) < k x :=
          h1 x (List.mem_cons_self x l1t)
        refine ⟨x :: b :: l1t, l2, ?_, ?_, h2, ?_⟩
        · rw [List.cons_append, List.cons_append, ← htail]
        · intro y hy
          rcases List.mem_cons.1 hy with rfl | hy
          · exact hmx
          · rcases List.mem_cons.1 hy with rfl | hy
            · exact lt_of_lt_of_le hmx hxb
            · exact h1 y (List.mem_cons_of_mem x hy)
        · intro y hy
          rcases List.mem_cons.1 hy with rfl | hy
          · exact h3 _ (List.mem_cons_self _ t)
          · rcases List.mem_cons.1 hy with rfl | hy
            · exact le_trans (h3 x (List.mem_cons_self x t)) hxb
            · exact h3 y (List.mem_cons_of_mem x hy)

/-- C2 counterexample: over the all-success sequence
`[Ok (1,0), Ok (1,1)]`, whose two elements are equally minimum under the
first-component comparator and key, `try_min_by` and `try_min_by_key`
return the FIRST tie `(1,0)`, not the last `(1,1)` as the claim states
(`std::cmp::min_by` keeps its first argument — the accumulator — on
`Equal`). -/
theorem try_min_last_tie_counterexample :
    try_min_by (cmpOfKey Prod.fst)
        ([.ok (1, 0), .ok (1, 1)] : List (RResult (Nat × Nat) Nat))
      = .ok (some (1, 0))
    ∧ try_min_by_key Prod.fst
        ([.ok (1, 0), .ok (1, 1)] : List (RResult (Nat × Nat) Nat))
      = .ok (some (1, 0))
    ∧ (RResult.ok (some ((1, 0) : Nat × Nat)) : RResult (Option (Nat × Nat)) Nat)
      ≠ .ok (some (1, 1)) := by
  refine ⟨by decide, by decide, by decide⟩

/-- C2 amended: for try_min, try_min_by (with an order-induced comparator)
and try_min_by_key, on every all-success sequence the element returned is
the FIRST equally-minimum one: it is a minimum, and every element strictly
before it in the sequence is strictly greater (tie-breaking keeps the
earlier element; the last-tie-wins rule holds for the max family
instead). -/
theorem try_min_first_tie :
    (∀ (α β ε : Type) [_inst : LinearOrder β] (k : α → β) (x : α) (l : List α),
      ∃ m l1 l2,
        try_min_by_key k (((x :: l).map RResult.ok) : List (RResult α ε))
          = .ok (some m)
        ∧ try_min_by (cmpOfKey k) (((x :: l).map RResult.ok) : List (RResult α ε))
          = .ok (some m)
        ∧ x :: l = l1 ++ m :: l2
        ∧ (∀ y ∈ l1, k m < k y)
        ∧ (∀ y ∈ l2, k m ≤ k y))
    ∧ (∀ (α ε : Type) [_inst : LinearOrder α] (x : α) (l : List α),
      ∃ m l1 l2,
        try_min (((x :: l).map RResult.ok) : List (RResult α ε)) = .ok (some m)
        ∧ x :: l = l1 ++ m :: l2
        ∧ (∀ y ∈ l1, m < y)
        ∧ (∀ y ∈ l2, m ≤ y)) := by
  have main : ∀ (α β ε : Type) [inst : LinearOrder β] (k : α → β) (x : α)
      (l : List α),
      ∃ m l1 l2,
        try_min_by_key k (((x :: l).map RResult.ok) : List (RResult α ε))
          = .ok (some m)
        ∧ try_min_by (cmpOfKey k) (((x :: l).map RResult.ok) : List (RResult α ε))
          = .ok (some m)
        ∧ x :: l = l1 ++ m :: l2
        ∧ (∀ y ∈ l1, k m < k y)
        ∧ (∀ y ∈ l2, k m ≤ k y) := by
    intro α β ε inst k x l
    obtain ⟨l1, l2, heq, h1, h2, _⟩ := foldl_minByKey_first α β k l x
    refine ⟨l.foldl (cmpMinByKey k) x, l1, l2, ?_, ?_, heq, h1, h2⟩
    · exact try_min_by_key_map_ok α β ε k l x
    · exact try_min_by_map_ok α ε (cmpOfKey k) l x
  refine ⟨main, fun α ε inst x l => ?_⟩
  obtain ⟨m, l1, l2, _, h2, heq, hs, ha⟩ := main α α ε id x l
  exact ⟨m, l1, l2, h2, heq, hs, ha⟩

/-- Witness for try_min_first_tie at the concrete tie
`[(1,0), (1,1)]` keyed by the first component. -/
theorem try_min_first_tie_witness :
    ∃ (m : Nat × Nat) (l1 l2 : List (Nat × Nat)),
      try_min_by_key Prod.fst
          ((((1, 0) :: [(1, 1)]).map RResult.ok) : List (RResult (Nat × Nat) Nat))
        = .ok (some m)
      ∧ try_min_by (cmpOfKey Prod.fst)
          ((((1, 0) :: [(1, 1)]).map RResult.ok) : List (RResult (Nat × Nat) Nat))
        = .ok (some m)
      ∧ (1, 0) :: [(1, 1)] = l1 ++ m :: l2
      ∧ (∀ y ∈ l1, m.1 < y.1)
      ∧ (∀ y ∈ l2, m.1 ≤ y.1) :=
  try_min_first_tie.1 (Nat × Nat) Nat Nat Prod.fst (1, 0) [(1, 1)]

end Tryiter
